import Mathlib

/-!
Verification of the pyglmnet Poisson example script
(`examples/api/plot_poisson.py`).

The script builds a demonstration grid `z = linspace(0, 10, 100)`, a
piecewise linearized exponential curve `qu`, a regularization sequence
`reg_lambda = logspace(log 0.5, log 0.01, 10, base = e)`, random feature
matrices of shape 10000 x 100, a sparse coefficient vector, simulated
Poisson targets, and finally prints a pseudo-R2 score.  Machine floats are
embedded as real numbers; the pseudorandom generators are abstract
parameters.
-/

namespace PlotPoisson

noncomputable section

open Real

/-- The linearization threshold `eta = 4.0` from the script. -/
def eta : ℝ := 4

/-- `slope = np.exp(eta)` from the script. -/
def slope : ℝ := Real.exp eta

/-- `intercept = (1 - eta) * slope` from the script. -/
def intercept : ℝ := (1 - eta) * slope

/-- The linear branch `z * exp(eta) + (1 - eta) * exp(eta)` of the
linearized exponential, for an arbitrary threshold `e`. -/
def linBranch (e z : ℝ) : ℝ := z * Real.exp e + (1 - e) * Real.exp e

/-- The piecewise conditional-intensity function from the script's
docstring: `exp z` when `z ≤ e`, otherwise the linear branch. -/
def lam (e z : ℝ) : ℝ := if z ≤ e then Real.exp z else linBranch e z

/-- The demonstration grid `z = np.linspace(0., 10., 100)`:
entry `i` is `0 + (10 - 0) * i / (100 - 1)`. -/
def zInit : Fin 100 → ℝ := fun i => 0 + (10 - 0) * (i : ℝ) / (100 - 1)

/-- State of the script's two arrays `(z, qu)`. -/
def ScriptArrays : Type := (Fin 100 → ℝ) × (Fin 100 → ℝ)

/-- `qu = deepcopy(z)`: `qu` becomes an independent copy of `z`. -/
def stepCopy (zv : Fin 100 → ℝ) : ScriptArrays := (zv, zv)

/-- `qu[z > eta] = z[z > eta] * slope + intercept`: positions whose `z`
value exceeds `eta` are overwritten in `qu`; `z` is untouched. -/
def stepAssignGt (s : ScriptArrays) : ScriptArrays :=
  (s.1, fun i => if s.1 i > eta then s.1 i * slope + intercept else s.2 i)

/-- `qu[z <= eta] = np.exp(z[z <= eta])`: positions whose `z` value is at
most `eta` are overwritten in `qu`; `z` is untouched. -/
def stepAssignLe (s : ScriptArrays) : ScriptArrays :=
  (s.1, fun i => if s.1 i ≤ eta then Real.exp (s.1 i) else s.2 i)

/-- The arrays `(z, qu)` after the three statements of the script. -/
def scriptArraysFinal : ScriptArrays := stepAssignLe (stepAssignGt (stepCopy zInit))

/-- The linearized curve `qu` as the script leaves it. -/
def qu : Fin 100 → ℝ := scriptArraysFinal.2

lemma qu_eq (i : Fin 100) :
    qu i = if zInit i ≤ eta then Real.exp (zInit i)
           else if zInit i > eta then zInit i * slope + intercept else zInit i := rfl

lemma zInit_zero : zInit 0 = 0 := by
  simp [zInit]

lemma zInit_last : zInit ⟨99, by norm_num⟩ = 10 := by
  norm_num [zInit]

/-- C1: on grid points with `z i ≤ eta`, the curve is the exponential. -/
theorem qu_eq_exp_of_le (i : Fin 100) (h : zInit i ≤ eta) :
    qu i = Real.exp (zInit i) := by
  rw [qu_eq, if_pos h]

/-- Witness for C1 at the grid point `i = 0`, where `z 0 = 0 ≤ 4`. -/
theorem qu_eq_exp_of_le_witness :
    zInit 0 ≤ eta ∧ qu 0 = Real.exp (zInit 0) := by
  have h : zInit 0 ≤ eta := by rw [zInit_zero]; norm_num [eta]
  exact ⟨h, qu_eq_exp_of_le 0 h⟩

/-- C2: on grid points with `z i > eta`, the curve is the linear branch
`z * exp(eta) + (1 - eta) * exp(eta)`. -/
theorem qu_eq_linear_of_gt (i : Fin 100) (h : zInit i > eta) :
    qu i = zInit i * Real.exp eta + (1 - eta) * Real.exp eta := by
  rw [qu_eq, if_neg (not_le.mpr h), if_pos h, slope, intercept, slope]

/-- Witness for C2 at the grid point `i = 99`, where `z 99 = 10 > 4`. -/
theorem qu_eq_linear_of_gt_witness :
    zInit ⟨99, by norm_num⟩ > eta ∧
    qu ⟨99, by norm_num⟩ =
      zInit ⟨99, by norm_num⟩ * Real.exp eta + (1 - eta) * Real.exp eta := by
  have h : zInit ⟨99, by norm_num⟩ > eta := by rw [zInit_last]; norm_num [eta]
  exact ⟨h, qu_eq_linear_of_gt _ h⟩

/-- C3: the linear branch evaluated at the threshold equals `exp` there,
for every real threshold, and hence the piecewise intensity `lam e` is
continuous (in particular at `z = e`, and for `e = eta = 4`). -/
theorem linBranch_continuous_at_threshold :
    (∀ e : ℝ, linBranch e e = Real.exp e) ∧ ∀ e : ℝ, Continuous (lam e) := by
  constructor
  · intro e
    unfold linBranch
    ring
  · intro e
    have hlin : Continuous fun z : ℝ => linBranch e z := by
      unfold linBranch
      exact (continuous_id.mul continuous_const).add continuous_const
    have h : ∀ z : ℝ, z = e → Real.exp z = linBranch e z := by
      intro z hz
      subst hz
      unfold linBranch
      ring
    exact Real.continuous_exp.if_le hlin continuous_id continuous_const h

/-- C9: the linearized curve never exceeds the exponential on the grid,
with equality exactly on the `z i ≤ eta` branch (the linear branch is the
tangent line of `exp` at `eta`, and `exp` is strictly convex). -/
theorem qu_le_exp (i : Fin 100) :
    qu i ≤ Real.exp (zInit i) ∧ (qu i = Real.exp (zInit i) ↔ zInit i ≤ eta) := by
  by_cases h : zInit i ≤ eta
  · rw [qu_eq_exp_of_le i h]
    exact ⟨le_rfl, by simp [h]⟩
  · have hgt : zInit i > eta := not_le.mp h
    have hne : zInit i - eta ≠ 0 := sub_ne_zero.mpr (ne_of_gt hgt)
    have hkey : (zInit i - eta) + 1 < Real.exp (zInit i - eta) :=
      Real.add_one_lt_exp hne
    have hmul : Real.exp eta * ((zInit i - eta) + 1) <
        Real.exp eta * Real.exp (zInit i - eta) :=
      mul_lt_mul_of_pos_left hkey (Real.exp_pos eta)
    have hexp : Real.exp eta * Real.exp (zInit i - eta) = Real.exp (zInit i) := by
      rw [← Real.exp_add]
      ring_nf
    have hlt : zInit i * Real.exp eta + (1 - eta) * Real.exp eta <
        Real.exp (zInit i) := by nlinarith [hmul, hexp]
    rw [qu_eq_linear_of_gt i hgt]
    refine ⟨le_of_lt hlt, ?_, ?_⟩
    · intro hc
      exact absurd hc (ne_of_lt hlt)
    · intro hc
      exact absurd hc h

/-- C10: building `qu` leaves `z` unchanged (it is a deep copy), so after
the two masked assignments `z` still equals `linspace(0, 10, 100)` entry by
entry, while `qu` now differs from `z`. -/
theorem scriptArrays_frame :
    (∀ i : Fin 100, scriptArraysFinal.1 i = 0 + (10 - 0) * (i : ℝ) / (100 - 1)) ∧
    scriptArraysFinal.2 ≠ scriptArraysFinal.1 := by
  constructor
  · intro i
    rfl
  · intro hcontra
    have h0 : zInit 0 ≤ eta := by rw [zInit_zero]; norm_num [eta]
    have hq : qu 0 = Real.exp (zInit 0) := qu_eq_exp_of_le 0 h0
    have hz : scriptArraysFinal.1 0 = zInit 0 := rfl
    have := congrFun hcontra 0
    rw [hz] at this
    have hq0 : qu 0 = zInit 0 := this
    rw [hq, zInit_zero, Real.exp_zero] at hq0
    exact one_ne_zero hq0

/-- The regularization sequence
`reg_lambda = np.logspace(np.log(0.5), np.log(0.01), 10, base=np.exp(1))`:
entry `k` is `exp(1) ^ (log(0.5) + k * (log(0.01) - log(0.5)) / 9)`
(real exponentiation by the linearly spaced exponent). -/
def regLambda (k : Fin 10) : ℝ :=
  Real.exp 1 ^ (Real.log 0.5 + (k : ℝ) * ((Real.log 0.01 - Real.log 0.5) / 9))

lemma regLambda_eq_exp (k : Fin 10) :
    regLambda k = Real.exp (Real.log 0.5 + (k : ℝ) * ((Real.log 0.01 - Real.log 0.5) / 9)) :=
  Real.exp_one_rpow _

/-- C6: `reg_lambda` is a sequence of 10 positive values, strictly
decreasing, with first element `0.5` and last element `0.01`. -/
theorem regLambda_path (k l : Fin 10) (hkl : k < l) :
    regLambda l < regLambda k ∧ (∀ j : Fin 10, 0 < regLambda j) ∧
    regLambda ⟨0, by norm_num⟩ = 0.5 ∧ regLambda ⟨9, by norm_num⟩ = 0.01 := by
  have hlog : Real.log 0.01 - Real.log 0.5 < 0 := by
    have := Real.log_lt_log (x := (0.01 : ℝ)) (by norm_num) (by norm_num : (0.01 : ℝ) < 0.5)
    linarith
  refine ⟨?_, ?_, ?_, ?_⟩
  · rw [regLambda_eq_exp, regLambda_eq_exp]
    apply Real.exp_lt_exp.mpr
    have hcast : (k : ℝ) < (l : ℝ) := by exact_mod_cast hkl
    have hc : (Real.log 0.01 - Real.log 0.5) / 9 < 0 := by linarith
    nlinarith [mul_lt_mul_of_neg_right hcast hc]
  · intro j
    rw [regLambda_eq_exp]
    exact Real.exp_pos _
  · rw [regLambda_eq_exp]
    norm_num
    exact Real.exp_log (by norm_num)
  · rw [regLambda_eq_exp]
    have h9 : ((⟨9, by norm_num⟩ : Fin 10) : ℝ) = 9 := by norm_num
    rw [h9]
    have harith : Real.log 0.5 + 9 * ((Real.log 0.01 - Real.log 0.5) / 9) =
        Real.log 0.01 := by ring
    rw [harith]
    exact Real.exp_log (by norm_num)

/-- Witness for C6 at the pair `k = 0 < l = 1`. -/
theorem regLambda_path_witness :
    (⟨0, by norm_num⟩ : Fin 10) < ⟨1, by norm_num⟩ ∧
    regLambda ⟨1, by norm_num⟩ < regLambda ⟨0, by norm_num⟩ := by
  have h : (⟨0, by norm_num⟩ : Fin 10) < ⟨1, by norm_num⟩ := by decide
  exact ⟨h, (regLambda_path _ _ h).1⟩

/-- `n_samples = 10000` from the script. -/
def nSamples : ℕ := 10000

/-- `n_features = 100` from the script. -/
def nFeatures : ℕ := 100

/-- An `n x p` matrix of drawn values, as a list of `n` rows of length `p`;
`g i j` is the value drawn for entry `(i, j)` (the script draws them from
`np.random.normal`, which we keep abstract). -/
def randn (g : ℕ → ℕ → ℝ) (n p : ℕ) : List (List ℝ) :=
  (List.range n).map fun i => (List.range p).map fun j => g i j

/-- The dense coefficient column `beta = np.array(sps.rand(n_features, 1, 0.1).todense())`
flattened to its `n_features` entries; `g j` is the drawn entry `j`. -/
def betaArr (g : ℕ → ℝ) : List ℝ :=
  (List.range nFeatures).map g

/-- Dot product of two equal-length real lists. -/
def dotList (a b : List ℝ) : ℝ :=
  (List.zipWith (fun x y => x * y) a b).sum

/-- Modelled from the spec: `GLM.simulate` of pyglmnet is not under `src/`;
the spec describes it as `estimator.simulate(intercept, coefficients,
design-matrix) → target-vector` whose entries are Poisson draws, and the
script's docstring gives the conditional intensity as the linearized link
`lam` applied to `z_i = beta_0 + sum_j beta_j x_ij`.  The Poisson sampler
is abstracted as `draw : ℝ → ℕ`, a natural-number draw from the
distribution with the given mean; the targets are the drawn counts, one
per row of the design matrix, as integers. -/
def simulate (beta0 : ℝ) (beta : List ℝ) (X : List (List ℝ)) (draw : ℝ → ℕ) : List ℤ :=
  X.map fun row => ((draw (lam eta (beta0 + dotList beta row)) : ℕ) : ℤ)

/-- C4: each simulated target vector (`yr` from `Xr` as well as `yt` from
`Xt`, both `10000 x 100` draw matrices) has length `n_samples = 10000` and
all its entries are non-negative integers. -/
theorem simulate_length_nonneg (g : ℕ → ℕ → ℝ) (gb : ℕ → ℝ) (beta0 : ℝ)
    (draw : ℝ → ℕ) :
    (simulate beta0 (betaArr gb) (randn g nSamples nFeatures) draw).length = 10000 ∧
    ∀ i : Fin (simulate beta0 (betaArr gb) (randn g nSamples nFeatures) draw).length,
      0 ≤ (simulate beta0 (betaArr gb) (randn g nSamples nFeatures) draw).get i := by
  constructor
  · simp [simulate, randn, nSamples]
  · intro i
    have hmem := (simulate beta0 (betaArr gb) (randn g nSamples nFeatures) draw).get_mem
      i.1 i.2
    rcases List.mem_map.mp hmem with ⟨row, _, hrow⟩
    rw [← hrow]
    exact Int.natCast_nonneg _

/-- C8: shape agreement of every array the script builds: each draw matrix
(`Xr`, `Xt`) has `n_samples = 10000` rows each of length
`n_features = 100`, `beta` has `n_features` entries, and each simulated
target vector has one entry per row of its design matrix. -/
theorem script_shapes (g : ℕ → ℕ → ℝ) (gb : ℕ → ℝ) (beta0 : ℝ) (draw : ℝ → ℕ) :
    (randn g nSamples nFeatures).length = 10000 ∧
    (∀ i : Fin (randn g nSamples nFeatures).length,
      ((randn g nSamples nFeatures).get i).length = 100) ∧
    (betaArr gb).length = 100 ∧
    (simulate beta0 (betaArr gb) (randn g nSamples nFeatures) draw).length =
      (randn g nSamples nFeatures).length := by
  refine ⟨?_, ?_, ?_, ?_⟩
  · simp [randn, nSamples]
  · intro i
    have hmem := (randn g nSamples nFeatures).get_mem i.1 i.2
    rcases List.mem_map.mp hmem with ⟨j, _, hrow⟩
    rw [← hrow]
    simp [nFeatures]
  · simp [betaArr, nFeatures]
  · simp [simulate]

/-- Poisson log-likelihood `sum_i (y_i * log mu_i - mu_i)` of count targets
`y` under predicted means `mu`. -/
def poissonLogL {n : ℕ} (y : Fin n → ℕ) (mu : Fin n → ℝ) : ℝ :=
  ∑ i, ((y i : ℝ) * Real.log (mu i) - mu i)

/-- Modelled from the spec: `GLM.score` with `score_metric = pseudo_R2` is
not under `src/`; the spec's glossary describes pseudo-R² as a
goodness-of-fit measure analogous to R², namely one minus the ratio of the
fitted model's Poisson log-likelihood deficit to the null model's deficit,
both relative to the saturated model (predicting `mu_i = y_i`). -/
def pseudoR2 {n : ℕ} (y : Fin n → ℕ) (mu mu0 : Fin n → ℝ) : ℝ :=
  1 - (poissonLogL y (fun i => (y i : ℝ)) - poissonLogL y mu) /
      (poissonLogL y (fun i => (y i : ℝ)) - poissonLogL y mu0)

lemma poissonLogL_term_le (y : ℕ) (mu : ℝ) (hmu : 0 < mu) :
    (y : ℝ) * Real.log mu - mu ≤ (y : ℝ) * Real.log y - y := by
  rcases Nat.eq_zero_or_pos y with hy | hy
  · subst hy
    simp
    linarith
  · have hc : (0 : ℝ) < y := by exact_mod_cast hy
    have hdiv : Real.log (mu / y) ≤ mu / y - 1 :=
      Real.log_le_sub_one_of_pos (div_pos hmu hc)
    have heq : Real.log (mu / y) = Real.log mu - Real.log y :=
      Real.log_div (ne_of_gt hmu) (ne_of_gt hc)
    rw [heq] at hdiv
    have hmul : (y : ℝ) * (Real.log mu - Real.log y) ≤ (y : ℝ) * (mu / y - 1) :=
      mul_le_mul_of_nonneg_left hdiv (le_of_lt hc)
    have hval : (y : ℝ) * (mu / y - 1) = mu - y := by
      field_simp
    nlinarith [hmul, hval]

lemma poissonLogL_le_saturated {n : ℕ} (y : Fin n → ℕ) (mu : Fin n → ℝ)
    (hmu : ∀ i, 0 < mu i) :
    poissonLogL y mu ≤ poissonLogL y (fun i => (y i : ℝ)) := by
  unfold poissonLogL
  exact Finset.sum_le_sum fun i _ => poissonLogL_term_le (y i) (mu i) (hmu i)

/-- C5: the pseudo-R² score of a model whose predicted means are positive,
against a null model with positive predicted means, is at most 1 (the
valid upper end of the metric's range). -/
theorem pseudoR2_le_one {n : ℕ} (y : Fin n → ℕ) (mu mu0 : Fin n → ℝ)
    (hmu : ∀ i, 0 < mu i) (hmu0 : ∀ i, 0 < mu0 i) :
    pseudoR2 y mu mu0 ≤ 1 := by
  unfold pseudoR2
  have h1 : 0 ≤ poissonLogL y (fun i => (y i : ℝ)) - poissonLogL y mu := by
    have := poissonLogL_le_saturated y mu hmu
    linarith
  have h0 : 0 ≤ poissonLogL y (fun i => (y i : ℝ)) - poissonLogL y mu0 := by
    have := poissonLogL_le_saturated y mu0 hmu0
    linarith
  have := div_nonneg h1 h0
  linarith

/-- Witness for C5 at the single-sample data `y = [1]` with unit
predictions for both the model and the null model. -/
theorem pseudoR2_le_one_witness :
    pseudoR2 (fun _ : Fin 1 => 1) (fun _ => 1) (fun _ => 1) ≤ 1 :=
  pseudoR2_le_one (fun _ : Fin 1 => 1) (fun _ => 1) (fun _ => 1)
    (fun _ => by norm_num) (fun _ => by norm_num)

end

end PlotPoisson
